import Mathlib

/-!
# Roulett: a verification development of `Roulett.cpp`

A shallow embedding of the Arduino sketch `src/Roulett.cpp` (game state, the
debounced menu tick of `loop`, the field colour mapping and `spinRoulette`),
followed by theorems about it.

Machine arithmetic is explicit:

* `int` is 16 bits wide on AVR boards and 32 bits wide on 32-bit boards; the
  width is fixed by a `Platform`.  Results of `+`, `-`, `*` are reduced into
  the two's-complement range of that width (`wrapInt`).
* `unsigned long` is 32 bits wide on both; `now - last` is computed modulo
  `2 ^ 32` (`ulongSub`).
* `double` is IEEE binary32 on AVR and binary64 on 32-bit boards; the two
  comparisons `i > totalSteps * 0.6` and `i > totalSteps * 0.8` are evaluated
  with round-to-nearest-even on the literal and on the product (`gtScaled`).

The peripherals (display, ring, buzzer) are outputs only; the ring frames of a
spin are returned as a list, the display and the buzzer are not modelled.
-/

namespace Roulett

/-! ## Platform and machine arithmetic -/

/-- The two families of boards the sketch can be built for. -/
inductive Platform where
  | avr
  | arm32
  deriving DecidableEq

/-- Width of `int` in bits. -/
def Platform.intBits : Platform → Nat
  | .avr => 16
  | .arm32 => 32

/-- Precision (significand bits) of `double`. -/
def Platform.mantBits : Platform → Nat
  | .avr => 24
  | .arm32 => 53

/-- Reduction of a mathematical integer into the range of `int`. -/
def wrapInt (pf : Platform) (x : Int) : Int :=
  (x + 2 ^ (pf.intBits - 1)) % 2 ^ pf.intBits - 2 ^ (pf.intBits - 1)

/-- Largest value of `int`. -/
def INT_MAX (pf : Platform) : Int := 2 ^ (pf.intBits - 1) - 1

/-- Smallest value of `int`. -/
def INT_MIN (pf : Platform) : Int := -(2 ^ (pf.intBits - 1))

/-- The `int` addition `a + b`. -/
def intAdd (pf : Platform) (a b : Int) : Int := wrapInt pf (a + b)

/-- The `int` subtraction `a - b`. -/
def intSub (pf : Platform) (a b : Int) : Int := wrapInt pf (a - b)

/-- The `int` multiplication `a * b`. -/
def intMul (pf : Platform) (a b : Int) : Int := wrapInt pf (a * b)

/-- The `int` remainder `a % b` of C++ (truncated towards zero). -/
def intMod (a b : Int) : Int := Int.tmod a b

/-- Number of values of `unsigned long`. -/
def ULONG_MOD : Nat := 2 ^ 32

/-- The `unsigned long` subtraction `a - b`. -/
def ulongSub (a b : Nat) : Nat :=
  (a % ULONG_MOD + (ULONG_MOD - b % ULONG_MOD)) % ULONG_MOD

/-- Number of binary digits of `n`, by repeated halving (at most `fuel` times). -/
def bitLengthAux : Nat → Nat → Nat
  | 0, _ => 0
  | fuel + 1, n => if n = 0 then 0 else bitLengthAux fuel (n / 2) + 1

/-- Number of binary digits of `n`. -/
def bitLength (n : Nat) : Nat := bitLengthAux n n

/-- Nearest natural number to `a / b`, ties to even. -/
def roundDiv (a b : Nat) : Nat :=
  let q := a / b
  let r := a % b
  if b < 2 * r ∨ (2 * r = b ∧ q % 2 = 1) then q + 1 else q

/-- Rounding of `n` to `p` significant bits, ties to even. -/
def roundSig (p n : Nat) : Nat :=
  let s := bitLength n - p
  roundDiv n (2 ^ s) * 2 ^ s

/-- Conversion of an `int` to `double`. -/
def intToDouble (pf : Platform) (x : Int) : Int :=
  Int.sign x * (roundSig pf.mantBits x.natAbs : Nat)

/-- The comparison `i > totalSteps * c` in `double` arithmetic, where `c` is the
decimal literal `num / den`, with `1/2 ≤ num / den < 1`.  The literal is the
double `m / 2 ^ p` with `m` the rounded significand; the product is rounded to
`p` significant bits and compared with the converted `i`. -/
def gtScaled (pf : Platform) (i totalSteps : Int) (num den : Nat) : Bool :=
  let p := pf.mantBits
  let m := roundDiv (num * 2 ^ p) den
  let t := intToDouble pf totalSteps
  let prod : Int := Int.sign t * (roundSig p (t.natAbs * m) : Nat)
  decide (prod < intToDouble pf i * 2 ^ p)

/-! ## Game state -/

/-- Number of LEDs in the ring. -/
def NUM_LEDS : Int := 24

/-- The two modes of the game. -/
inductive GameState where
  | MENU
  | SPIN
  deriving DecidableEq

/-- The global variables of the sketch. -/
structure Game where
  balance : Int
  bet : Int
  colorSelect : Int
  state : GameState
  lastPlus : Nat
  lastMinus : Nat
  lastOk : Nat
  lastColor : Nat
  deriving DecidableEq

/-- The globals as initialised at program start. -/
def initGame : Game :=
  { balance := 500, bet := 100, colorSelect := 0, state := GameState.MENU,
    lastPlus := 0, lastMinus := 0, lastOk := 0, lastColor := 0 }

/-- Debounce interval. -/
def debounce : Nat := 150

/-- The four readings `btn(BTN_PLUS)`, `btn(BTN_MINUS)`, `btn(BTN_OK)`,
`btn(BTN_COLOR)` of one pass through `loop`. -/
structure Buttons where
  plus : Bool
  minus : Bool
  ok : Bool
  color : Bool
  deriving DecidableEq

/-- Display name of a colour. -/
def getColorName (c : Int) : String :=
  if c = 0 then "ROT" else if c = 1 then "BLAU" else "GRUEN"

/-- Colour of a ring position. -/
def getFieldColor (pf : Platform) (pos : Int) : Int :=
  intMod (intMul pf pos 7) 3

/-- The pixel colour of a colour index, as a red/green/blue triple. -/
def pixelColor (c : Int) : Nat × Nat × Nat :=
  if c = 0 then (255, 0, 0) else if c = 1 then (0, 0, 255) else (0, 255, 0)

/-! ## The spin -/

/-- One frame of the ring: the single lit position, its pixel colour and the
time the frame is held. -/
structure Frame where
  pos : Int
  color : Nat × Nat × Nat
  delay : Int
  deriving DecidableEq

/-- The animation loop `for (int i = 0; i <= totalSteps; i++)` of
`spinRoulette`, started at the loop state `(i, pos, speed)`.  It returns the
frames shown, or `none` when `fuel` iterations did not reach the exit. -/
def spinLoop (pf : Platform) (totalSteps : Int) : Nat → Int → Int → Int → Option (List Frame)
  | 0, i, _, _ => if i ≤ totalSteps then none else some []
  | fuel + 1, i, pos, speed =>
    if i ≤ totalSteps then
      let frame : Frame := ⟨pos, pixelColor (getFieldColor pf pos), speed⟩
      let pos1 := intMod (intAdd pf pos 1) NUM_LEDS
      let speed1 := if gtScaled pf i totalSteps 6 10 then intAdd pf speed 3 else speed
      let speed2 := if gtScaled pf i totalSteps 8 10 then intAdd pf speed1 6 else speed1
      (spinLoop pf totalSteps fuel (intAdd pf i 1) pos1 speed2).map (fun fs => frame :: fs)
    else some []

/-- What one run of `spinRoulette` leaves behind. -/
structure SpinResult where
  game : Game
  totalSteps : Int
  frames : List Frame
  finalColor : Int
  blink : List Frame
  won : Bool

/-- One run of `spinRoulette` with the draws `rounds = random(4, 9)` and
`finalPos = random(0, NUM_LEDS)`. -/
def spinRoulette (pf : Platform) (fuel : Nat) (g : Game) (rounds finalPos : Int) :
    Option SpinResult :=
  let totalSteps := intAdd pf (intMul pf rounds NUM_LEDS) finalPos
  match spinLoop pf totalSteps fuel 0 0 10 with
  | none => none
  | some frames =>
    let finalColor := getFieldColor pf finalPos
    let blink := List.replicate 4 (⟨finalPos, pixelColor finalColor, 150⟩ : Frame)
    if finalColor = g.colorSelect then
      some { game := { g with balance := intAdd pf g.balance g.bet, state := GameState.MENU },
             totalSteps := totalSteps, frames := frames, finalColor := finalColor,
             blink := blink, won := true }
    else
      some { game := { g with balance := intSub pf g.balance g.bet, state := GameState.MENU },
             totalSteps := totalSteps, frames := frames, finalColor := finalColor,
             blink := blink, won := false }

/-! ## The main loop -/

/-- The `if (btn(BTN_PLUS) && now - lastPlus > debounce)` statement. -/
def stepPlus (pf : Platform) (now : Nat) (b : Buttons) (g : Game) : Game :=
  if b.plus = true ∧ debounce < ulongSub now g.lastPlus then
    { g with bet := intAdd pf g.bet 100, lastPlus := now }
  else g

/-- The `if (btn(BTN_MINUS) && now - lastMinus > debounce)` statement. -/
def stepMinus (pf : Platform) (now : Nat) (b : Buttons) (g : Game) : Game :=
  if b.minus = true ∧ debounce < ulongSub now g.lastMinus then
    let bet1 := intSub pf g.bet 100
    { g with bet := if bet1 < 100 then 100 else bet1, lastMinus := now }
  else g

/-- The `if (btn(BTN_COLOR) && now - lastColor > debounce)` statement. -/
def stepColor (pf : Platform) (now : Nat) (b : Buttons) (g : Game) : Game :=
  if b.color = true ∧ debounce < ulongSub now g.lastColor then
    { g with colorSelect := intMod (intAdd pf g.colorSelect 1) 3, lastColor := now }
  else g

/-- The `if (btn(BTN_OK) && now - lastOk > debounce)` statement. -/
def stepOk (now : Nat) (b : Buttons) (g : Game) : Game :=
  if b.ok = true ∧ debounce < ulongSub now g.lastOk then
    { g with state := GameState.SPIN, lastOk := now }
  else g

/-- The `state == MENU` branch of `loop`: the four button statements in source
order. -/
def menuTick (pf : Platform) (g : Game) (now : Nat) (b : Buttons) : Game :=
  stepOk now b (stepColor pf now b (stepMinus pf now b (stepPlus pf now b g)))

/-- One pass through `loop`, with clock reading `now = millis()`, button
readings `b` and, for the spin branch, the two random draws. -/
def loop (pf : Platform) (fuel : Nat) (g : Game) (now : Nat) (b : Buttons)
    (rounds finalPos : Int) : Option Game :=
  match g.state with
  | GameState.MENU => some (menuTick pf g now b)
  | GameState.SPIN => (spinRoulette pf fuel g rounds finalPos).map (fun r => r.game)

/-- States reachable from the initial state by passes through `loop` with
arbitrary buttons, clock readings and draws. -/
inductive Reachable (pf : Platform) : Game → Prop where
  | init : Reachable pf initGame
  | tick (g g2 : Game) (fuel now : Nat) (b : Buttons) (rounds finalPos : Int) :
      Reachable pf g → now < ULONG_MOD → 4 ≤ rounds → rounds < 9 →
      0 ≤ finalPos → finalPos < NUM_LEDS →
      loop pf fuel g now b rounds finalPos = some g2 → Reachable pf g2

/-! ## Exact description of the animation -/

/-- Exact description of the delay used at step `i` of a spin of `T` steps. -/
def scheduleAt (T : Nat) : Nat → Nat
  | 0 => 10
  | i + 1 => scheduleAt T i + (if 3 * T < 5 * i then 3 else 0) + (if 4 * T < 5 * i then 6 else 0)

/-- Exact description of the frame shown at step `i` of a spin of `T` steps. -/
def frameAt (pf : Platform) (T i : Nat) : Frame :=
  ⟨((i % 24 : Nat) : Int), pixelColor (getFieldColor pf ((i % 24 : Nat) : Int)), (scheduleAt T i : Int)⟩

/-! ## Buttons, executions and scenarios used in the statements -/

/-- The four buttons. -/
inductive Button where
  | PLUS
  | MINUS
  | OK
  | COLOR
  deriving DecidableEq

/-- The reading of one button. -/
def Buttons.get (b : Buttons) : Button → Bool
  | .PLUS => b.plus
  | .MINUS => b.minus
  | .OK => b.ok
  | .COLOR => b.color

/-- The same readings with one button not asserted. -/
def Buttons.release (b : Buttons) : Button → Buttons
  | .PLUS => { b with plus := false }
  | .MINUS => { b with minus := false }
  | .OK => { b with ok := false }
  | .COLOR => { b with color := false }

/-- The timestamp of the last accepted press of a button. -/
def Game.last (g : Game) : Button → Nat
  | .PLUS => g.lastPlus
  | .MINUS => g.lastMinus
  | .OK => g.lastOk
  | .COLOR => g.lastColor

/-- Executions of `loop`, counted by the number of passes in which a press of
COLOR is accepted: `ColorPresses pf g n g2` when `g2` is reached from `g` by
passes through `loop` of which exactly `n` accept a COLOR press. -/
inductive ColorPresses (pf : Platform) : Game → Nat → Game → Prop where
  | start (g : Game) : ColorPresses pf g 0 g
  | accepted (g g1 g2 : Game) (n fuel now : Nat) (b : Buttons) (rounds finalPos : Int) :
      ColorPresses pf g n g1 →
      g1.state = GameState.MENU → b.color = true → debounce < ulongSub now g1.lastColor →
      loop pf fuel g1 now b rounds finalPos = some g2 → ColorPresses pf g (n + 1) g2
  | other (g g1 g2 : Game) (n fuel now : Nat) (b : Buttons) (rounds finalPos : Int) :
      ColorPresses pf g n g1 →
      ¬ (g1.state = GameState.MENU ∧ b.color = true ∧ debounce < ulongSub now g1.lastColor) →
      loop pf fuel g1 now b rounds finalPos = some g2 → ColorPresses pf g n g2

/-- The readings with only PLUS asserted. -/
def onlyPlus : Buttons := { plus := true, minus := false, ok := false, color := false }

/-- The scenario of keeping PLUS pressed: `n` passes through `loop` from the
initial state, 151 time units apart, with only PLUS asserted. -/
def holdPlus (pf : Platform) : Nat → Option Game
  | 0 => some initGame
  | n + 1 => (holdPlus pf n).bind (fun g => loop pf 0 g (151 * (n + 1)) onlyPlus 4 0)

/-- The readings with only OK asserted. -/
def onlyOk : Buttons := { plus := false, minus := false, ok := true, color := false }

/-- The scenario of raising the bet and starting a spin: `n` passes with only
PLUS asserted as in `holdPlus`, then one pass at clock value 4000000000 with
only OK asserted. -/
def holdPlusThenOk (pf : Platform) (n : Nat) : Option Game :=
  (holdPlus pf n).bind (fun g => loop pf 0 g 4000000000 onlyOk 4 0)

/-- The readings with only COLOR asserted. -/
def onlyColor : Buttons := { plus := false, minus := false, ok := false, color := true }

/-- The state of the settlement example: BLUE selected, bet 200, balance 500,
spin started. -/
def blueBet : Game := { initGame with bet := 200, colorSelect := 1, state := GameState.SPIN }

/-- A value of 16-bit range is unchanged by the reduction, on both platforms. -/
theorem wrapInt_eq (pf : Platform) (x : Int) (h1 : -32768 ≤ x) (h2 : x < 32768) :
    wrapInt pf x = x := by
  cases pf <;> simp only [wrapInt, Platform.intBits] <;> norm_num <;> omega

set_option maxRecDepth 100000 in
/-- Small integers are converted to `double` exactly. -/
theorem roundSig_small (pf : Platform) : ∀ n < 217, roundSig pf.mantBits n = n := by
  cases pf <;> decide

set_option maxRecDepth 100000 in
/-- The rounded product `T * 0.6`, scaled by `2 ^ p`, lies in
`[⌊3T/5⌋, ⌊3T/5⌋ + 1)` for every step count of a spin. -/
theorem prod60_bounds (pf : Platform) : ∀ T < 216, 96 ≤ T →
    (3 * T / 5) * 2 ^ pf.mantBits ≤ roundSig pf.mantBits (T * roundDiv (6 * 2 ^ pf.mantBits) 10) ∧
    roundSig pf.mantBits (T * roundDiv (6 * 2 ^ pf.mantBits) 10) < (3 * T / 5 + 1) * 2 ^ pf.mantBits := by
  cases pf <;> decide

set_option maxRecDepth 100000 in
/-- The rounded product `T * 0.8`, scaled by `2 ^ p`, lies in
`[⌊4T/5⌋, ⌊4T/5⌋ + 1)` for every step count of a spin. -/
theorem prod80_bounds (pf : Platform) : ∀ T < 216, 96 ≤ T →
    (4 * T / 5) * 2 ^ pf.mantBits ≤ roundSig pf.mantBits (T * roundDiv (8 * 2 ^ pf.mantBits) 10) ∧
    roundSig pf.mantBits (T * roundDiv (8 * 2 ^ pf.mantBits) 10) < (4 * T / 5 + 1) * 2 ^ pf.mantBits := by
  cases pf <;> decide

/-- Conversion of a small non-negative `int` to `double` is exact. -/
theorem intToDouble_small (pf : Platform) (n : Nat) (h : n < 217) :
    intToDouble pf (n : Int) = (n : Int) := by
  unfold intToDouble
  rw [Int.natAbs_ofNat, roundSig_small pf n h]
  rcases Nat.eq_zero_or_pos n with h0 | h0
  · subst h0; simp
  · have : Int.sign (n : Int) = 1 := Int.sign_eq_one_of_pos (by exact_mod_cast h0)
    rw [this]; simp

/-- The scale `2 ^ p` is positive. -/
theorem two_pow_mantBits_pos (pf : Platform) : 0 < 2 ^ pf.mantBits := Nat.two_pow_pos _

/-- The `double` comparison `i > totalSteps * 0.6` agrees with `5 i > 3 T`. -/
theorem gtScaled_60 (pf : Platform) (i T : Nat) (hT1 : 96 ≤ T) (hT2 : T < 216) (hi : i < 217) :
    gtScaled pf (i : Int) (T : Int) 6 10 = decide (3 * T < 5 * i) := by
  unfold gtScaled
  simp only [intToDouble_small pf T (by omega), intToDouble_small pf i hi, Int.natAbs_ofNat]
  have hs : Int.sign (T : Int) = 1 := Int.sign_eq_one_of_pos (by omega)
  rw [hs, one_mul]
  obtain ⟨h1, h2⟩ := prod60_bounds pf T hT2 hT1
  have hp := two_pow_mantBits_pos pf
  generalize roundSig pf.mantBits (T * roundDiv (6 * 2 ^ pf.mantBits) 10) = N at h1 h2
  have e : ((N : Int) < (i : Int) * 2 ^ pf.mantBits) ↔ (3 * T < 5 * i) := by
    have : ((N : Int) < (i : Int) * 2 ^ pf.mantBits) ↔ N < i * 2 ^ pf.mantBits := by
      constructor
      · intro h; exact_mod_cast h
      · intro h; exact_mod_cast h
    rw [this]
    generalize 2 ^ pf.mantBits = P at h1 h2 hp
    constructor
    · intro h
      by_contra hc
      have : i ≤ 3 * T / 5 := by omega
      have := Nat.mul_le_mul_right P this
      omega
    · intro h
      have : 3 * T / 5 + 1 ≤ i := by omega
      have := Nat.mul_le_mul_right P this
      omega
  simp only [e]

/-- The `double` comparison `i > totalSteps * 0.8` agrees with `5 i > 4 T`. -/
theorem gtScaled_80 (pf : Platform) (i T : Nat) (hT1 : 96 ≤ T) (hT2 : T < 216) (hi : i < 217) :
    gtScaled pf (i : Int) (T : Int) 8 10 = decide (4 * T < 5 * i) := by
  unfold gtScaled
  simp only [intToDouble_small pf T (by omega), intToDouble_small pf i hi, Int.natAbs_ofNat]
  have hs : Int.sign (T : Int) = 1 := Int.sign_eq_one_of_pos (by omega)
  rw [hs, one_mul]
  obtain ⟨h1, h2⟩ := prod80_bounds pf T hT2 hT1
  have hp := two_pow_mantBits_pos pf
  generalize roundSig pf.mantBits (T * roundDiv (8 * 2 ^ pf.mantBits) 10) = N at h1 h2
  have e : ((N : Int) < (i : Int) * 2 ^ pf.mantBits) ↔ (4 * T < 5 * i) := by
    have : ((N : Int) < (i : Int) * 2 ^ pf.mantBits) ↔ N < i * 2 ^ pf.mantBits := by
      constructor
      · intro h; exact_mod_cast h
      · intro h; exact_mod_cast h
    rw [this]
    generalize 2 ^ pf.mantBits = P at h1 h2 hp
    constructor
    · intro h
      by_contra hc
      have : i ≤ 4 * T / 5 := by omega
      have := Nat.mul_le_mul_right P this
      omega
    · intro h
      have : 4 * T / 5 + 1 ≤ i := by omega
      have := Nat.mul_le_mul_right P this
      omega
  simp only [e]

/-! ## The animation loop -/

/-- On non-negative operands the remainder of C++ is the Euclidean one. -/
theorem intMod_nonneg (a b : Int) (ha : 0 ≤ a) (hb : 0 ≤ b) : intMod a b = a % b := by
  unfold intMod
  exact Int.tmod_eq_emod ha hb

/-- The delay grows by at most 9 per step. -/
theorem scheduleAt_le (T : Nat) : ∀ i, scheduleAt T i ≤ 10 + 9 * i
  | 0 => by simp [scheduleAt]
  | i + 1 => by
    have := scheduleAt_le T i
    simp only [scheduleAt]
    split_ifs <;> omega

/-- The animation loop, entered at step `i` with `k` steps to go, returns and
shows the frames `frameAt i, ..., frameAt (i + k - 1)`. -/
theorem spinLoop_eq (pf : Platform) (T : Nat) (hT1 : 96 ≤ T) (hT2 : T < 216) :
    ∀ (k fuel i : Nat), i + k = T + 1 → k ≤ fuel →
      spinLoop pf (T : Int) fuel (i : Int) ((i % 24 : Nat) : Int) (scheduleAt T i : Int)
        = some ((List.range' i k).map (frameAt pf T)) := by
  intro k
  induction k with
  | zero =>
    intro fuel i hik _
    have hi : ¬ ((i : Int) ≤ (T : Int)) := by omega
    cases fuel <;> simp [spinLoop, hi]
  | succ k ih =>
    intro fuel i hik hfuel
    obtain ⟨f, rfl⟩ : ∃ f, fuel = f + 1 := ⟨fuel - 1, by omega⟩
    have hi : (i : Int) ≤ (T : Int) := by omega
    have hs := scheduleAt_le T i
    have e1 : intAdd pf (i : Int) 1 = ((i + 1 : Nat) : Int) := by
      unfold intAdd; rw [wrapInt_eq] <;> push_cast <;> omega
    have e2 : intMod (intAdd pf ((i % 24 : Nat) : Int) 1) NUM_LEDS = (((i + 1) % 24 : Nat) : Int) := by
      unfold intAdd NUM_LEDS
      rw [wrapInt_eq, intMod_nonneg] <;> push_cast <;> omega
    have e3 : (if gtScaled pf (i : Int) (T : Int) 8 10 = true then
        intAdd pf (if gtScaled pf (i : Int) (T : Int) 6 10 = true then
          intAdd pf (scheduleAt T i : Int) 3 else (scheduleAt T i : Int)) 6
        else (if gtScaled pf (i : Int) (T : Int) 6 10 = true then
          intAdd pf (scheduleAt T i : Int) 3 else (scheduleAt T i : Int)))
        = ((scheduleAt T (i + 1) : Nat) : Int) := by
      rw [gtScaled_60 pf i T hT1 hT2 (by omega), gtScaled_80 pf i T hT1 hT2 (by omega)]
      simp only [scheduleAt, decide_eq_true_eq]
      unfold intAdd
      split_ifs <;> (try rw [wrapInt_eq]) <;> (try rw [wrapInt_eq]) <;> push_cast <;> omega
    rw [spinLoop, if_pos hi]
    simp only [e1, e2, e3]
    rw [ih f (i + 1) (by omega) (by omega)]
    simp [List.range'_succ, frameAt]

/-- For draws in range `totalSteps` is computed without overflow. -/
theorem totalSteps_eq (pf : Platform) (rounds finalPos : Int) (hr1 : 4 ≤ rounds) (hr2 : rounds < 9)
    (hf1 : 0 ≤ finalPos) (hf2 : finalPos < NUM_LEDS) :
    intAdd pf (intMul pf rounds NUM_LEDS) finalPos = rounds * 24 + finalPos := by
  unfold NUM_LEDS at *
  unfold intAdd intMul
  rw [wrapInt_eq pf (rounds * 24) (by omega) (by omega), wrapInt_eq pf _ (by omega) (by omega)]

/-- For draws in range and enough fuel `spinRoulette` returns; its result in
closed form. -/
theorem spinRoulette_eq (pf : Platform) (fuel : Nat) (g : Game) (rounds finalPos : Int)
    (hr1 : 4 ≤ rounds) (hr2 : rounds < 9) (hf1 : 0 ≤ finalPos) (hf2 : finalPos < NUM_LEDS)
    (hfuel : 216 ≤ fuel) :
    ∃ T : Nat, (T : Int) = rounds * 24 + finalPos ∧
      spinRoulette pf fuel g rounds finalPos = some
        { game := { g with
            balance := if getFieldColor pf finalPos = g.colorSelect
              then intAdd pf g.balance g.bet else intSub pf g.balance g.bet,
            state := GameState.MENU },
          totalSteps := rounds * 24 + finalPos,
          frames := (List.range (T + 1)).map (frameAt pf T),
          finalColor := getFieldColor pf finalPos,
          blink := List.replicate 4 ⟨finalPos, pixelColor (getFieldColor pf finalPos), 150⟩,
          won := decide (getFieldColor pf finalPos = g.colorSelect) } := by
  have hT := totalSteps_eq pf rounds finalPos hr1 hr2 hf1 hf2
  unfold NUM_LEDS at hf2
  refine ⟨(rounds * 24 + finalPos).toNat, by omega, ?_⟩
  generalize hTn : (rounds * 24 + finalPos).toNat = T
  have hTi : rounds * 24 + finalPos = (T : Int) := by omega
  have hloop := spinLoop_eq pf T (by omega) (by omega) (T + 1) fuel 0 (by omega) (by omega)
  simp only [scheduleAt, Nat.zero_mod, Nat.cast_zero, Nat.cast_ofNat] at hloop
  unfold spinRoulette
  simp only [hT]
  rw [hTi, hloop, List.range_eq_range']
  by_cases hc : getFieldColor pf finalPos = g.colorSelect <;> simp [hc]

/-! ## Claims about the spin -/

/-- A representable value is unchanged by the reduction. -/
theorem wrapInt_exact (pf : Platform) (x : Int) (h1 : INT_MIN pf ≤ x) (h2 : x ≤ INT_MAX pf) :
    wrapInt pf x = x := by
  unfold INT_MIN INT_MAX at *
  cases pf <;> simp only [wrapInt, Platform.intBits] at * <;> norm_num at * <;> omega

/-- The exact delay schedule is non-decreasing. -/
theorem scheduleAt_mono (T : Nat) : Monotone (scheduleAt T) := by
  apply monotone_nat_of_le_succ
  intro i
  simp only [scheduleAt]
  omega

/-- The frame at index `i` of the exact frame list. -/
theorem frames_getElem (pf : Platform) (T i : Nat) (hi : i ≤ T) :
    ((List.range (T + 1)).map (frameAt pf T))[i]? = some (frameAt pf T i) := by
  rw [List.getElem?_map, List.getElem?_range (by omega)]
  rfl

/-- Settlement in `int` arithmetic: for every state and every pair of draws one
run of `spinRoulette` returns, sets the balance to the `int` sum `intAdd` of
balance and bet when the colour of `finalPos` is the selected colour and to the
`int` difference `intSub` otherwise, sets the mode to MENU and leaves bet and
selected colour unchanged.  The sum and the difference are the exact values
`balance + bet` and `balance - bet` only when these are representable in
`int`. -/
theorem settlement_int_arith (pf : Platform) (fuel : Nat) (g : Game) (rounds finalPos : Int)
    (hr1 : 4 ≤ rounds) (hr2 : rounds < 9) (hf1 : 0 ≤ finalPos) (hf2 : finalPos < NUM_LEDS)
    (hfuel : 216 ≤ fuel) :
    ∃ r, spinRoulette pf fuel g rounds finalPos = some r ∧
      (getFieldColor pf finalPos = g.colorSelect →
        r.game.balance = intAdd pf g.balance g.bet ∧
        (INT_MIN pf ≤ g.balance + g.bet → g.balance + g.bet ≤ INT_MAX pf →
          r.game.balance = g.balance + g.bet)) ∧
      (getFieldColor pf finalPos ≠ g.colorSelect →
        r.game.balance = intSub pf g.balance g.bet ∧
        (INT_MIN pf ≤ g.balance - g.bet → g.balance - g.bet ≤ INT_MAX pf →
          r.game.balance = g.balance - g.bet)) ∧
      r.game.state = GameState.MENU ∧ r.game.bet = g.bet ∧
      r.game.colorSelect = g.colorSelect := by
  obtain ⟨T, _, h⟩ := spinRoulette_eq pf fuel g rounds finalPos hr1 hr2 hf1 hf2 hfuel
  refine ⟨_, h, ?_, ?_, rfl, rfl, rfl⟩
  · intro hc
    simp only [if_pos hc, true_and]
    intro h1 h2
    exact wrapInt_exact pf _ h1 h2
  · intro hc
    simp only [if_neg hc, true_and]
    intro h1 h2
    exact wrapInt_exact pf _ h1 h2

/-- Claim C4 (the wheel stops on the drawn position): for draws `rounds` in
`[4, 9)` and `finalPos` in `[0, 24)` the frame shown at step `i = totalSteps`,
which is the last frame of the animation loop, lights position `finalPos` in the
pixel colour of `getFieldColor finalPos`, and the `finalColor` used for the
settlement is `getFieldColor finalPos`. -/
theorem wheel_stops_on_finalPos (pf : Platform) (fuel : Nat) (g : Game) (rounds finalPos : Int)
    (hr1 : 4 ≤ rounds) (hr2 : rounds < 9) (hf1 : 0 ≤ finalPos) (hf2 : finalPos < NUM_LEDS)
    (hfuel : 216 ≤ fuel) :
    ∃ r f, spinRoulette pf fuel g rounds finalPos = some r ∧
      r.totalSteps = rounds * 24 + finalPos ∧
      r.frames[r.totalSteps.toNat]? = some f ∧ r.frames.getLast? = some f ∧
      f.pos = finalPos ∧ f.color = pixelColor (getFieldColor pf finalPos) ∧
      r.finalColor = getFieldColor pf finalPos := by
  obtain ⟨T, hT, h⟩ := spinRoulette_eq pf fuel g rounds finalPos hr1 hr2 hf1 hf2 hfuel
  unfold NUM_LEDS at hf2
  have hpos : ((T % 24 : Nat) : Int) = finalPos := by omega
  refine ⟨_, frameAt pf T T, h, rfl, ?_, ?_, ?_, ?_, rfl⟩
  · have : (rounds * 24 + finalPos).toNat = T := by omega
    simp only [this]
    exact frames_getElem pf T T (le_refl _)
  · rw [List.getLast?_eq_getElem?]
    simp only [List.length_map, List.length_range, Nat.add_sub_cancel]
    exact frames_getElem pf T T (le_refl _)
  · simp only [frameAt, hpos]
  · simp only [frameAt, hpos]

/-- Claim C8, amended: for draws `rounds` in `[4, 9)` and `finalPos` in
`[0, 24)`, `totalSteps` is `rounds * 24 + finalPos` and the animation loop, which
runs for the step indices `0` to `totalSteps` inclusive, shows
`rounds * 24 + finalPos + 1` frames. -/
theorem spin_frame_count (pf : Platform) (fuel : Nat) (g : Game) (rounds finalPos : Int)
    (hr1 : 4 ≤ rounds) (hr2 : rounds < 9) (hf1 : 0 ≤ finalPos) (hf2 : finalPos < NUM_LEDS)
    (hfuel : 216 ≤ fuel) :
    ∃ r, spinRoulette pf fuel g rounds finalPos = some r ∧
      r.totalSteps = rounds * 24 + finalPos ∧
      (r.frames.length : Int) = rounds * 24 + finalPos + 1 := by
  obtain ⟨T, hT, h⟩ := spinRoulette_eq pf fuel g rounds finalPos hr1 hr2 hf1 hf2 hfuel
  refine ⟨_, h, rfl, ?_⟩
  simp only [List.length_map, List.length_range]
  omega

/-- Claim C8 as stated fails: with `rounds = 4` and `finalPos = 0` the animation
loop shows 97 frames, not `4 * 24 + 0 = 96`. -/
theorem spin_frame_count_counterexample :
    ∃ r, spinRoulette Platform.avr 216 initGame 4 0 = some r ∧
      r.frames.length = 97 ∧ (r.frames.length : Int) ≠ 4 * 24 + 0 := by
  obtain ⟨T, hT, h⟩ := spinRoulette_eq Platform.avr 216 initGame 4 0
    (by decide) (by decide) (by decide) (by decide) (by decide)
  have hT96 : T = 96 := by omega
  subst hT96
  refine ⟨_, h, ?_, ?_⟩ <;> simp

/-- Claim C10 (two-stage deceleration): for draws `rounds` in `[4, 9)` and
`finalPos` in `[0, 24)`, with `T = rounds * 24 + finalPos`, the delay of step 0
is 10, the delay of step `i + 1` exceeds the delay of step `i` by 0 when
`5 i ≤ 3 T`, by 3 when `3 T < 5 i ≤ 4 T` and by 9 when `4 T < 5 i`, and the
delays of the frames are non-decreasing.  The thresholds of the program are the
`double` comparisons `i > totalSteps * 0.6` and `i > totalSteps * 0.8`; on both
platforms they agree with the exact ones for these draws. -/
theorem deceleration_schedule (pf : Platform) (fuel : Nat) (g : Game) (rounds finalPos : Int)
    (hr1 : 4 ≤ rounds) (hr2 : rounds < 9) (hf1 : 0 ≤ finalPos) (hf2 : finalPos < NUM_LEDS)
    (hfuel : 216 ≤ fuel) :
    ∃ r, spinRoulette pf fuel g rounds finalPos = some r ∧
      (∃ f, r.frames[0]? = some f ∧ f.delay = 10) ∧
      (∀ i : Nat, (i : Int) < rounds * 24 + finalPos →
        ∃ f0 f1, r.frames[i]? = some f0 ∧ r.frames[i + 1]? = some f1 ∧
          f1.delay - f0.delay =
            if 5 * (i : Int) ≤ 3 * (rounds * 24 + finalPos) then 0
            else if 5 * (i : Int) ≤ 4 * (rounds * 24 + finalPos) then 3 else 9) ∧
      List.Pairwise (fun a b => a ≤ b) (r.frames.map (fun f => f.delay)) := by
  obtain ⟨T, hT, h⟩ := spinRoulette_eq pf fuel g rounds finalPos hr1 hr2 hf1 hf2 hfuel
  refine ⟨_, h, ⟨frameAt pf T 0, frames_getElem pf T 0 (by omega), rfl⟩, ?_, ?_⟩
  · intro i hi
    refine ⟨frameAt pf T i, frameAt pf T (i + 1), frames_getElem pf T i (by omega),
      frames_getElem pf T (i + 1) (by omega), ?_⟩
    rw [← hT]
    simp only [frameAt, scheduleAt]
    split_ifs <;> push_cast <;> omega
  · simp only [List.map_map]
    rw [List.pairwise_map]
    refine List.Pairwise.imp ?_ (List.pairwise_lt_range (T + 1))
    intro a b hab
    simp only [Function.comp, frameAt]
    exact_mod_cast scheduleAt_mono T (le_of_lt hab)

/-! ## The menu tick -/

/-- The menu pass in closed form: the four acceptance conditions only read
the timestamps of the state the pass starts from. -/
theorem menuTick_eq (pf : Platform) (g : Game) (now : Nat) (b : Buttons) :
    menuTick pf g now b =
      { balance := g.balance,
        bet :=
          if b.minus = true ∧ debounce < ulongSub now g.lastMinus then
            (if intSub pf (if b.plus = true ∧ debounce < ulongSub now g.lastPlus
                then intAdd pf g.bet 100 else g.bet) 100 < 100 then 100
             else intSub pf (if b.plus = true ∧ debounce < ulongSub now g.lastPlus
                then intAdd pf g.bet 100 else g.bet) 100)
          else (if b.plus = true ∧ debounce < ulongSub now g.lastPlus
                then intAdd pf g.bet 100 else g.bet),
        colorSelect :=
          if b.color = true ∧ debounce < ulongSub now g.lastColor then
            intMod (intAdd pf g.colorSelect 1) 3 else g.colorSelect,
        state :=
          if b.ok = true ∧ debounce < ulongSub now g.lastOk then GameState.SPIN else g.state,
        lastPlus := if b.plus = true ∧ debounce < ulongSub now g.lastPlus then now else g.lastPlus,
        lastMinus :=
          if b.minus = true ∧ debounce < ulongSub now g.lastMinus then now else g.lastMinus,
        lastOk := if b.ok = true ∧ debounce < ulongSub now g.lastOk then now else g.lastOk,
        lastColor :=
          if b.color = true ∧ debounce < ulongSub now g.lastColor then now else g.lastColor } := by
  by_cases hP : (b.plus = true ∧ debounce < ulongSub now g.lastPlus) <;>
  by_cases hM : (b.minus = true ∧ debounce < ulongSub now g.lastMinus) <;>
  by_cases hC : (b.color = true ∧ debounce < ulongSub now g.lastColor) <;>
  by_cases hO : (b.ok = true ∧ debounce < ulongSub now g.lastOk) <;>
  simp [menuTick, stepPlus, stepMinus, stepColor, stepOk, hP, hM, hC, hO]

/-- A button that cannot be accepted may as well not be asserted. -/
theorem menuTick_release (pf : Platform) (g : Game) (now : Nat) (b : Buttons) (x : Button)
    (h : ¬ (debounce < ulongSub now (g.last x))) :
    menuTick pf g now (b.release x) = menuTick pf g now b := by
  rw [menuTick_eq, menuTick_eq]
  cases x <;>
    simp only [Game.last] at h <;>
    simp [Buttons.release, h]

/-- The timestamp of a button after a menu pass. -/
theorem menuTick_last (pf : Platform) (g : Game) (now : Nat) (b : Buttons) (x : Button) :
    (menuTick pf g now b).last x =
      if b.get x = true ∧ debounce < ulongSub now (g.last x) then now else g.last x := by
  rw [menuTick_eq]
  cases x <;> rfl

/-- In mode MENU `loop` is the menu pass. -/
theorem loop_menu (pf : Platform) (fuel : Nat) (g : Game) (now : Nat) (b : Buttons)
    (rounds finalPos : Int) (h : g.state = GameState.MENU) :
    loop pf fuel g now b rounds finalPos = some (menuTick pf g now b) := by
  unfold loop; rw [h]

/-- Claim C5 (debounce suppression): for every button `x`, when a press of `x`
is accepted in a menu-mode pass at clock value `t1`, its timestamp becomes `t1`;
and in any later menu-mode pass at a clock value `t2` fewer than 150 time units
after `t1`, entered with that timestamp still in place, the press of `x` is not
accepted: the timestamp stays `t1` and the pass has the same result as with `x`
not asserted, so the effect of `x` is applied once. -/
theorem debounce_suppression (pf : Platform) (fuel : Nat) (x : Button) (g : Game)
    (t1 t2 : Nat) (b1 b2 : Buttons) (r1 f1 r2 f2 : Int)
    (hmenu : g.state = GameState.MENU) (hpress : b1.get x = true)
    (hacc : 150 < ulongSub t1 (g.last x)) (hgap : ulongSub t2 t1 < 150) :
    ∃ g1, loop pf fuel g t1 b1 r1 f1 = some g1 ∧ g1.last x = t1 ∧
      ∀ g2 : Game, g2.state = GameState.MENU → g2.last x = g1.last x →
        ∃ g3, loop pf fuel g2 t2 b2 r2 f2 = some g3 ∧ g3.last x = t1 ∧
          loop pf fuel g2 t2 (b2.release x) r2 f2 = some g3 := by
  have h1 : (menuTick pf g t1 b1).last x = t1 := by
    rw [menuTick_last, if_pos ⟨hpress, hacc⟩]
  refine ⟨_, loop_menu pf fuel g t1 b1 r1 f1 hmenu, h1, ?_⟩
  intro g2 hm2 hl2
  have hno : ¬ (debounce < ulongSub t2 (g2.last x)) := by
    rw [hl2, h1]; unfold debounce; omega
  refine ⟨_, loop_menu pf fuel g2 t2 b2 r2 f2 hm2, ?_, ?_⟩
  · rw [menuTick_last, if_neg (fun h => hno h.2), hl2, h1]
  · rw [loop_menu pf fuel g2 t2 _ r2 f2 hm2, menuTick_release pf g2 t2 b2 x hno]

/-- Whenever `spinRoulette` returns, it changed only balance and mode. -/
theorem spinRoulette_game (pf : Platform) (fuel : Nat) (g : Game) (rounds finalPos : Int)
    (r : SpinResult) (h : spinRoulette pf fuel g rounds finalPos = some r) :
    r.game = { g with
      balance := if getFieldColor pf finalPos = g.colorSelect
        then intAdd pf g.balance g.bet else intSub pf g.balance g.bet,
      state := GameState.MENU } := by
  unfold spinRoulette at h
  cases hl : spinLoop pf (intAdd pf (intMul pf rounds NUM_LEDS) finalPos) fuel 0 0 10 with
  | none => simp [hl] at h
  | some frames =>
    simp only [hl] at h
    by_cases hc : getFieldColor pf finalPos = g.colorSelect
    · simp only [if_pos hc, Option.some.injEq] at h
      subst h
      simp only [if_pos hc]
    · simp only [if_neg hc, Option.some.injEq] at h
      subst h
      simp only [if_neg hc]

/-- Without wrap-around `ulongSub` is the difference. -/
theorem ulongSub_of_le (a b : Nat) (hb : b ≤ a) (ha : a < ULONG_MOD) : ulongSub a b = a - b := by
  unfold ulongSub
  unfold ULONG_MOD at *
  omega

/-- The largest `int` is at most `2 ^ 31 - 1`. -/
theorem INT_MAX_le (pf : Platform) : INT_MAX pf ≤ 2147483647 := by
  cases pf <;> simp [INT_MAX, Platform.intBits]

/-- The smallest `int` is at most `-2 ^ 15`. -/
theorem INT_MIN_le (pf : Platform) : INT_MIN pf ≤ -32768 := by
  cases pf <;> simp [INT_MIN, Platform.intBits]

/-- While `bet` stays representable, every pass of the scenario accepts PLUS:
after `n` passes `bet` is `100 + 100 n`. -/
theorem holdPlus_eq (pf : Platform) : ∀ n : Nat, 100 + 100 * (n : Int) ≤ INT_MAX pf →
    holdPlus pf n = some { initGame with bet := 100 + 100 * (n : Int), lastPlus := 151 * n }
  | 0, _ => by simp [holdPlus, initGame]
  | n + 1, h => by
    have hmax := INT_MAX_le pf
    have hmin := INT_MIN_le pf
    have ih := holdPlus_eq pf n (by push_cast at h; omega)
    have hsub : ulongSub (151 * (n + 1)) (151 * n) = 151 :=
      (ulongSub_of_le _ _ (by omega) (by unfold ULONG_MOD; push_cast at h; omega)).trans (by omega)
    have hadd : intAdd pf (100 + 100 * (n : Int)) 100 = 100 + 100 * ((n + 1 : Nat) : Int) := by
      unfold intAdd
      rw [wrapInt_exact pf _ (by push_cast at h; omega) (by push_cast at h ⊢; omega)]
      push_cast; ring
    rw [holdPlus, ih, Option.some_bind, loop_menu _ _ _ _ _ _ _ rfl, menuTick_eq]
    simp [onlyPlus, initGame, hsub, hadd, debounce]

/-- Every state of the scenario is reachable. -/
theorem holdPlus_reachable (pf : Platform) : ∀ (n : Nat) (g : Game), 151 * n < ULONG_MOD →
    holdPlus pf n = some g → Reachable pf g
  | 0, g, _, h => by
    simp only [holdPlus, Option.some.injEq] at h
    subst h
    exact Reachable.init
  | n + 1, g, hn, h => by
    rw [holdPlus] at h
    cases h0 : holdPlus pf n with
    | none => rw [h0] at h; exact absurd h (by simp)
    | some g0 =>
      rw [h0, Option.some_bind] at h
      exact Reachable.tick g0 g 0 (151 * (n + 1)) onlyPlus 4 0
        (holdPlus_reachable pf n g0 (by omega) h0) hn (by decide) (by decide) (by decide)
        (by decide) h

/-- Without overflow of `bet + 100` a menu pass keeps `bet` at 100 or above. -/
theorem menuTick_bet_floor (pf : Platform) (g : Game) (now : Nat) (b : Buttons)
    (h1 : 100 ≤ g.bet) (h2 : g.bet + 100 ≤ INT_MAX pf) : 100 ≤ (menuTick pf g now b).bet := by
  have hmin := INT_MIN_le pf
  have e1 : intAdd pf g.bet 100 = g.bet + 100 := wrapInt_exact pf _ (by omega) h2
  rw [menuTick_eq]
  simp only [e1]
  split_ifs <;> omega

/-- Claim C3 fails on the code (bet floor): keeping PLUS pressed drives `bet`
past the largest `int`.  With 16-bit `int` the 327th accepted press takes `bet`
from 32700 to -32736; with 32-bit `int` the 21474836th takes it from 2147483600
to -2147483596.  Both states are reachable from the initial state and have
`bet < 100`. -/
theorem bet_floor_overflow :
    (∃ g, holdPlus Platform.avr 327 = some g ∧ Reachable Platform.avr g ∧
      g.bet = -32736 ∧ g.bet < 100) ∧
    (∃ g, holdPlus Platform.arm32 21474836 = some g ∧ Reachable Platform.arm32 g ∧
      g.bet = -2147483596 ∧ g.bet < 100) := by
  have h16 := holdPlus_eq Platform.avr 326 (by decide)
  have h32 := holdPlus_eq Platform.arm32 21474835 (by decide)
  have e16 : holdPlus Platform.avr 327 = some
      { initGame with bet := -32736, lastPlus := 151 * 327 } := by
    rw [show (327 : Nat) = 326 + 1 from rfl, holdPlus, h16, Option.some_bind,
      loop_menu _ _ _ _ _ _ _ rfl, menuTick_eq]
    decide
  have e32 : holdPlus Platform.arm32 21474836 = some
      { initGame with bet := -2147483596, lastPlus := 151 * 21474836 } := by
    rw [show (21474836 : Nat) = 21474835 + 1 from rfl, holdPlus, h32, Option.some_bind,
      loop_menu _ _ _ _ _ _ _ rfl, menuTick_eq]
    decide
  refine ⟨⟨_, e16, holdPlus_reachable _ _ _ (by decide) e16, rfl, by decide⟩,
    ⟨_, e32, holdPlus_reachable _ _ _ (by decide) e32, rfl, by decide⟩⟩

/-- Claim C2 fails on the code (settlement): the bet can be raised until balance
plus bet exceeds the largest `int`.  With 16-bit `int`, 326 accepted PLUS presses
and an accepted OK press lead from the initial state to mode SPIN with balance
500 and bet 32700; a spin that resolves to the selected colour then leaves the
balance -32336, not 500 + 32700 = 33200.  With 32-bit `int` the same happens
after 21474835 presses: bet 2147483600, balance -2147483196. -/
theorem settlement_overflow :
    (∃ g r, holdPlusThenOk Platform.avr 326 = some g ∧ Reachable Platform.avr g ∧
      g.state = GameState.SPIN ∧ g.balance = 500 ∧ g.bet = 32700 ∧
      getFieldColor Platform.avr 0 = g.colorSelect ∧
      spinRoulette Platform.avr 216 g 4 0 = some r ∧
      r.game.balance = -32336 ∧ r.game.balance ≠ g.balance + g.bet) ∧
    (∃ g r, holdPlusThenOk Platform.arm32 21474835 = some g ∧ Reachable Platform.arm32 g ∧
      g.state = GameState.SPIN ∧ g.balance = 500 ∧ g.bet = 2147483600 ∧
      getFieldColor Platform.arm32 0 = g.colorSelect ∧
      spinRoulette Platform.arm32 216 g 4 0 = some r ∧
      r.game.balance = -2147483196 ∧ r.game.balance ≠ g.balance + g.bet) := by
  have h16 := holdPlus_eq Platform.avr 326 (by decide)
  have h32 := holdPlus_eq Platform.arm32 21474835 (by decide)
  have l16 : loop Platform.avr 0
      { initGame with bet := 100 + 100 * ((326 : Nat) : Int), lastPlus := 151 * 326 }
      4000000000 onlyOk 4 0 = some
      { initGame with bet := 32700, lastPlus := 151 * 326, state := GameState.SPIN,
                      lastOk := 4000000000 } := by
    rw [loop_menu _ _ _ _ _ _ _ rfl, menuTick_eq]
    decide
  have l32 : loop Platform.arm32 0
      { initGame with bet := 100 + 100 * ((21474835 : Nat) : Int), lastPlus := 151 * 21474835 }
      4000000000 onlyOk 4 0 = some
      { initGame with bet := 2147483600, lastPlus := 151 * 21474835, state := GameState.SPIN,
                      lastOk := 4000000000 } := by
    rw [loop_menu _ _ _ _ _ _ _ rfl, menuTick_eq]
    decide
  have e16 : holdPlusThenOk Platform.avr 326 = some
      { initGame with bet := 32700, lastPlus := 151 * 326, state := GameState.SPIN,
                      lastOk := 4000000000 } := by
    rw [holdPlusThenOk, h16, Option.some_bind, l16]
  have e32 : holdPlusThenOk Platform.arm32 21474835 = some
      { initGame with bet := 2147483600, lastPlus := 151 * 21474835, state := GameState.SPIN,
                      lastOk := 4000000000 } := by
    rw [holdPlusThenOk, h32, Option.some_bind, l32]
  have r16 := Reachable.tick _ _ 0 4000000000 onlyOk 4 0
    (holdPlus_reachable Platform.avr 326 _ (by decide) h16)
    (by decide) (by decide) (by decide) (by decide) (by decide) l16
  have r32 := Reachable.tick _ _ 0 4000000000 onlyOk 4 0
    (holdPlus_reachable Platform.arm32 21474835 _ (by decide) h32)
    (by decide) (by decide) (by decide) (by decide) (by decide) l32
  obtain ⟨q16, s16⟩ : ∃ r, spinRoulette Platform.avr 216
      { initGame with bet := 32700, lastPlus := 151 * 326, state := GameState.SPIN,
                      lastOk := 4000000000 } 4 0 = some r :=
    let ⟨_, _, h⟩ := spinRoulette_eq Platform.avr 216 _ 4 0
      (by decide) (by decide) (by decide) (by decide) (by decide)
    ⟨_, h⟩
  obtain ⟨q32, s32⟩ : ∃ r, spinRoulette Platform.arm32 216
      { initGame with bet := 2147483600, lastPlus := 151 * 21474835, state := GameState.SPIN,
                      lastOk := 4000000000 } 4 0 = some r :=
    let ⟨_, _, h⟩ := spinRoulette_eq Platform.arm32 216 _ 4 0
      (by decide) (by decide) (by decide) (by decide) (by decide)
    ⟨_, h⟩
  have g16 := spinRoulette_game _ _ _ _ _ q16 s16
  have g32 := spinRoulette_game _ _ _ _ _ q32 s32
  refine ⟨⟨_, q16, e16, r16, rfl, rfl, rfl, by decide, s16, ?_, ?_⟩,
    ⟨_, q32, e32, r32, rfl, rfl, rfl, by decide, s32, ?_, ?_⟩⟩
  · rw [g16]; decide
  · rw [g16]; decide
  · rw [g32]; decide
  · rw [g32]; decide

/-- Claim C1 (colour fairness): on the 24 ring positions `getFieldColor pos` is
`(pos * 7) % 3`, and it is 0 (RED) for exactly 8 positions, 1 (BLUE) for exactly
8 positions and 2 (GREEN) for exactly 8 positions. -/
theorem field_colors_fair (pf : Platform) :
    (∀ pos : Nat, pos < 24 → getFieldColor pf (pos : Int) = ((pos : Int) * 7) % 3) ∧
    ((List.range 24).filter (fun pos => decide (getFieldColor pf (pos : Int) = 0))).length = 8 ∧
    ((List.range 24).filter (fun pos => decide (getFieldColor pf (pos : Int) = 1))).length = 8 ∧
    ((List.range 24).filter (fun pos => decide (getFieldColor pf (pos : Int) = 2))).length = 8 := by
  cases pf <;> decide

/-- In mode SPIN `loop` is `spinRoulette`. -/
theorem loop_spin (pf : Platform) (fuel : Nat) (g : Game) (now : Nat) (b : Buttons)
    (rounds finalPos : Int) (h : g.state = GameState.SPIN) :
    loop pf fuel g now b rounds finalPos =
      (spinRoulette pf fuel g rounds finalPos).map (fun r => r.game) := by
  unfold loop; rw [h]

/-- After `n` accepted COLOR presses the selected colour is `(c + n) % 3`. -/
theorem colorPresses_color (pf : Platform) (g g2 : Game) (n : Nat)
    (h : ColorPresses pf g n g2) (hc1 : 0 ≤ g.colorSelect) (hc2 : g.colorSelect < 3) :
    g2.colorSelect = (g.colorSelect + (n : Int)) % 3 := by
  induction h with
  | start => simp only [Nat.cast_zero, add_zero]; omega
  | accepted g1 g2 n fuel now b rounds finalPos _ hm hb hacc hloop ih =>
    rw [loop_menu _ _ _ _ _ _ _ hm, Option.some.injEq] at hloop
    subst hloop
    rw [menuTick_eq]
    simp only [if_pos (And.intro hb hacc)]
    unfold intAdd
    rw [wrapInt_eq pf _ (by omega) (by omega), intMod_nonneg _ _ (by omega) (by omega), ih]
    push_cast
    omega
  | other g1 g2 n fuel now b rounds finalPos _ hno hloop ih =>
    rw [← ih]
    cases hs : g1.state with
    | MENU =>
      rw [loop_menu _ _ _ _ _ _ _ hs, Option.some.injEq] at hloop
      subst hloop
      rw [menuTick_eq]
      simp only [if_neg (fun hh => hno ⟨hs, hh⟩)]
    | SPIN =>
      rw [loop_spin _ _ _ _ _ _ _ hs] at hloop
      cases hr : spinRoulette pf fuel g1 rounds finalPos with
      | none => simp [hr] at hloop
      | some r =>
        simp only [hr, Option.map_some', Option.some.injEq] at hloop
        subst hloop
        rw [spinRoulette_game pf fuel g1 rounds finalPos r hr]

/-- Claim C7 (colour cycle closure): from a selected colour `c` in `{0, 1, 2}`,
an accepted COLOR press selects `(c + 1) % 3`; any execution with exactly three
accepted COLOR presses ends with the selected colour `c` again; and after any
number of accepted presses the selected colour is in `{0, 1, 2}`. -/
theorem color_cycle (pf : Platform) (g : Game)
    (hc : g.colorSelect = 0 ∨ g.colorSelect = 1 ∨ g.colorSelect = 2) :
    (∀ (fuel now : Nat) (b : Buttons) (rounds finalPos : Int),
      g.state = GameState.MENU → b.color = true → 150 < ulongSub now g.lastColor →
      ∃ g1, loop pf fuel g now b rounds finalPos = some g1 ∧
        g1.colorSelect = (g.colorSelect + 1) % 3) ∧
    (∀ g3, ColorPresses pf g 3 g3 → g3.colorSelect = g.colorSelect) ∧
    (∀ n gn, ColorPresses pf g n gn →
      gn.colorSelect = 0 ∨ gn.colorSelect = 1 ∨ gn.colorSelect = 2) := by
  refine ⟨?_, ?_, ?_⟩
  · intro fuel now b rounds finalPos hm hb hacc
    have h1 : ColorPresses pf g 1 (menuTick pf g now b) :=
      ColorPresses.accepted g g _ 0 fuel now b rounds finalPos (ColorPresses.start g) hm hb hacc
        (loop_menu pf fuel g now b rounds finalPos hm)
    refine ⟨_, loop_menu pf fuel g now b rounds finalPos hm, ?_⟩
    rw [colorPresses_color pf g _ 1 h1 (by omega) (by omega)]
    rfl
  · intro g3 h3
    rw [colorPresses_color pf g g3 3 h3 (by omega) (by omega)]
    push_cast
    omega
  · intro n gn hn
    have := colorPresses_color pf g gn n hn (by omega) (by omega)
    omega

/-- Claim C6, amended: in a menu-mode pass at clock value `now`, a button is
accepted exactly when it is asserted and strictly more than 150 time units have
elapsed since its last accepted press (`150 < now - last` in `unsigned long`
arithmetic).  An accepted button has its timestamp set to `now` and its effect
applied (PLUS: bet plus 100; MINUS: bet minus 100, not below 100; COLOR: next
colour; OK: mode SPIN); for a button that is not accepted neither changes.  The
balance is unchanged. -/
theorem debounce_threshold (pf : Platform) (fuel : Nat) (g : Game) (now : Nat) (b : Buttons)
    (rounds finalPos : Int) (hmenu : g.state = GameState.MENU) :
    ∃ g1, loop pf fuel g now b rounds finalPos = some g1 ∧
      (∀ x, g1.last x =
        if b.get x = true ∧ 150 < ulongSub now (g.last x) then now else g.last x) ∧
      g1.bet =
        (if b.minus = true ∧ 150 < ulongSub now g.lastMinus then
          (if intSub pf (if b.plus = true ∧ 150 < ulongSub now g.lastPlus
              then intAdd pf g.bet 100 else g.bet) 100 < 100 then 100
           else intSub pf (if b.plus = true ∧ 150 < ulongSub now g.lastPlus
              then intAdd pf g.bet 100 else g.bet) 100)
         else (if b.plus = true ∧ 150 < ulongSub now g.lastPlus
              then intAdd pf g.bet 100 else g.bet)) ∧
      g1.colorSelect =
        (if b.color = true ∧ 150 < ulongSub now g.lastColor then
          intMod (intAdd pf g.colorSelect 1) 3 else g.colorSelect) ∧
      g1.state =
        (if b.ok = true ∧ 150 < ulongSub now g.lastOk then GameState.SPIN
         else GameState.MENU) ∧
      g1.balance = g.balance := by
  refine ⟨_, loop_menu pf fuel g now b rounds finalPos hmenu, ?_, ?_, ?_, ?_, ?_⟩
  · intro x; exact menuTick_last pf g now b x
  · rw [menuTick_eq]; rfl
  · rw [menuTick_eq]; rfl
  · rw [menuTick_eq, hmenu]; rfl
  · rw [menuTick_eq]

/-- Claim C6 as stated fails: from the initial state, with PLUS asserted at
clock value 150, exactly 150 time units have elapsed since the last accepted
press of PLUS, yet the pass changes nothing: bet stays 100 and the timestamp
stays 0. -/
theorem debounce_threshold_counterexample :
    initGame.state = GameState.MENU ∧ onlyPlus.plus = true ∧
    150 ≤ ulongSub 150 initGame.lastPlus ∧
    ∃ g1, loop Platform.avr 0 initGame 150 onlyPlus 4 0 = some g1 ∧
      g1.bet = 100 ∧ g1.lastPlus = 0 ∧
      g1.bet ≠ intAdd Platform.avr initGame.bet 100 ∧ g1.lastPlus ≠ 150 :=
  ⟨by decide, by decide, by decide, initGame, by decide, by decide, by decide, by decide,
    by decide⟩

/-! ## Instances at concrete inputs -/

/-- The settlement example: BLUE selected, bet 200, balance 500 gives 700 when
the spin resolves to BLUE and 300 when it resolves to RED. -/
theorem settlement_int_arith_example :
    (∃ r, spinRoulette Platform.avr 216 blueBet 4 1 = some r ∧ r.game.balance = 700 ∧
      r.game.state = GameState.MENU ∧ r.game.bet = 200 ∧ r.game.colorSelect = 1) ∧
    (∃ r, spinRoulette Platform.avr 216 blueBet 4 0 = some r ∧ r.game.balance = 300 ∧
      r.game.state = GameState.MENU ∧ r.game.bet = 200 ∧ r.game.colorSelect = 1) := by
  constructor
  · obtain ⟨r, h, hw, _, hs, hb, hc⟩ := settlement_int_arith Platform.avr 216 blueBet 4 1
      (by decide) (by decide) (by decide) (by decide) (by decide)
    exact ⟨r, h, ((hw (by decide)).2 (by decide) (by decide)).trans (by decide), hs, hb, hc⟩
  · obtain ⟨r, h, _, hl, hs, hb, hc⟩ := settlement_int_arith Platform.avr 216 blueBet 4 0
      (by decide) (by decide) (by decide) (by decide) (by decide)
    exact ⟨r, h, ((hl (by decide)).2 (by decide) (by decide)).trans (by decide), hs, hb, hc⟩

/-- The wheel stops on position 5 for the draws `rounds = 4`, `finalPos = 5`. -/
theorem wheel_stops_on_finalPos_witness :
    ((4 : Int) ≤ 4 ∧ (4 : Int) < 9 ∧ (0 : Int) ≤ 5 ∧ (5 : Int) < NUM_LEDS ∧ 216 ≤ 216) ∧
    ∃ r f, spinRoulette Platform.avr 216 initGame 4 5 = some r ∧
      r.totalSteps = 4 * 24 + 5 ∧
      r.frames[r.totalSteps.toNat]? = some f ∧ r.frames.getLast? = some f ∧
      f.pos = 5 ∧ f.color = pixelColor (getFieldColor Platform.avr 5) ∧
      r.finalColor = getFieldColor Platform.avr 5 :=
  ⟨by decide, wheel_stops_on_finalPos Platform.avr 216 initGame 4 5
    (by decide) (by decide) (by decide) (by decide) (by decide)⟩

/-- A press of PLUS accepted at 200 suppresses a press of PLUS at 300. -/
theorem debounce_suppression_witness :
    (initGame.state = GameState.MENU ∧ onlyPlus.get Button.PLUS = true ∧
      150 < ulongSub 200 (initGame.last Button.PLUS) ∧ ulongSub 300 200 < 150) ∧
    ∃ g1, loop Platform.avr 0 initGame 200 onlyPlus 4 0 = some g1 ∧ g1.last Button.PLUS = 200 ∧
      ∀ g2 : Game, g2.state = GameState.MENU → g2.last Button.PLUS = g1.last Button.PLUS →
        ∃ g3, loop Platform.avr 0 g2 300 onlyPlus 4 0 = some g3 ∧ g3.last Button.PLUS = 200 ∧
          loop Platform.avr 0 g2 300 (onlyPlus.release Button.PLUS) 4 0 = some g3 :=
  ⟨by decide, debounce_suppression Platform.avr 0 Button.PLUS initGame 200 300 onlyPlus onlyPlus
    4 0 4 0 (by decide) (by decide) (by decide) (by decide)⟩

/-- A press of PLUS 151 time units after the last accepted one is accepted. -/
theorem debounce_threshold_witness :
    initGame.state = GameState.MENU ∧
    ∃ g1, loop Platform.avr 0 initGame 151 onlyPlus 4 0 = some g1 ∧
      g1.bet = 200 ∧ g1.lastPlus = 151 ∧ g1.lastMinus = 0 ∧ g1.colorSelect = 0 ∧
      g1.state = GameState.MENU ∧ g1.balance = 500 := by
  obtain ⟨g1, h, hl, hb, hc, hs, hbal⟩ :=
    debounce_threshold Platform.avr 0 initGame 151 onlyPlus 4 0 (by decide)
  exact ⟨by decide, g1, h, hb.trans (by decide), (hl Button.PLUS).trans (by decide),
    (hl Button.MINUS).trans (by decide), hc.trans (by decide), hs.trans (by decide),
    hbal.trans (by decide)⟩

/-- An accepted COLOR press in the initial state selects BLUE. -/
theorem color_cycle_witness :
    (initGame.colorSelect = 0 ∨ initGame.colorSelect = 1 ∨ initGame.colorSelect = 2) ∧
    ∃ g1, loop Platform.avr 0 initGame 200 onlyColor 4 0 = some g1 ∧
      g1.colorSelect = (initGame.colorSelect + 1) % 3 :=
  ⟨by decide, (color_cycle Platform.avr initGame (by decide)).1 0 200 onlyColor 4 0
    (by decide) (by decide) (by decide)⟩

/-- The frame count for the draws `rounds = 4`, `finalPos = 5`. -/
theorem spin_frame_count_witness :
    ((4 : Int) ≤ 4 ∧ (4 : Int) < 9 ∧ (0 : Int) ≤ 5 ∧ (5 : Int) < NUM_LEDS ∧ 216 ≤ 216) ∧
    ∃ r, spinRoulette Platform.arm32 216 initGame 4 5 = some r ∧
      r.totalSteps = 4 * 24 + 5 ∧ (r.frames.length : Int) = 4 * 24 + 5 + 1 :=
  ⟨by decide, spin_frame_count Platform.arm32 216 initGame 4 5
    (by decide) (by decide) (by decide) (by decide) (by decide)⟩

/-- The delay schedule for the longest spin, `rounds = 8`, `finalPos = 23`. -/
theorem deceleration_schedule_witness :
    ((4 : Int) ≤ 8 ∧ (8 : Int) < 9 ∧ (0 : Int) ≤ 23 ∧ (23 : Int) < NUM_LEDS ∧ 216 ≤ 216) ∧
    ∃ r, spinRoulette Platform.avr 216 initGame 8 23 = some r ∧
      (∃ f, r.frames[0]? = some f ∧ f.delay = 10) ∧
      (∀ i : Nat, (i : Int) < 8 * 24 + 23 →
        ∃ f0 f1, r.frames[i]? = some f0 ∧ r.frames[i + 1]? = some f1 ∧
          f1.delay - f0.delay =
            if 5 * (i : Int) ≤ 3 * (8 * 24 + 23) then 0
            else if 5 * (i : Int) ≤ 4 * (8 * 24 + 23) then 3 else 9) ∧
      List.Pairwise (fun a b => a ≤ b) (r.frames.map (fun f => f.delay)) :=
  ⟨by decide, deceleration_schedule Platform.avr 216 initGame 8 23
    (by decide) (by decide) (by decide) (by decide) (by decide)⟩

end Roulett
